import Mathlib

/-!
Verification development for the `systick-timer` crate: a 64-bit monotonic
timer built on the Cortex-M SysTick 24-bit down-counter.  The definitions
below are a shallow embedding of `systick-timer/src/timer.rs` (the PendST
based implementation) and, where needed for comparison, of the root crate
`src/timer.rs` (the older COUNTFLAG based implementation), both in their
hosted (test) configuration, where the hardware registers are emulated by
fields of the timer structure.  Machine integers are `Nat` with explicit
reduction modulo `2^32` (for `u32`) and `2^64` (for `u64`) at the
operations where overflow can occur.
-/

set_option maxHeartbeats 1000000
set_option maxRecDepth 40000

namespace STT

/-- The modulus of 32-bit machine arithmetic, `2^32`. -/
def U32 : Nat := 4294967296

/-- The modulus of 64-bit machine arithmetic, `2^64`. -/
def U64 : Nat := 18446744073709551616

/-- Saturating 64-bit multiplication (`u64::saturating_mul`) for operands
below `2^64`. -/
def satMul64 (a b : Nat) : Nat := min (a * b) (U64 - 1)

/-- Saturating 64-bit addition (`u64::saturating_add`) for operands below
`2^64`. -/
def satAdd64 (a b : Nat) : Nat := min (a + b) (U64 - 1)

/-- Wrapping 64-bit subtraction (release-mode semantics of `a - b` on
`u64`); for `b ≤ a < 2^64` it coincides with mathematical subtraction. -/
def sub64 (a b : Nat) : Nat := (a + U64 - b) % U64

/-- State of `Timer` in the hosted (test) configuration: the two 32-bit
atomic wrap counters, the immutable configuration fields, and the emulated
hardware registers (`current_systick` for `VAL`, `systick_has_wrapped` for
the read-clear `COUNTFLAG`, `pendst_is_pending` for the `PENDST` bit). -/
structure Timer where
  inner_wraps : Nat
  outer_wraps : Nat
  reload_value : Nat
  multiplier : Nat
  shift : Nat
  current_systick : Nat
  systick_has_wrapped : Bool
  pendst_is_pending : Bool
deriving Repr, DecidableEq

/-- Source `Timer::get_syst` (test configuration): load of the emulated
`VAL` register. -/
def Timer.get_syst (t : Timer) : Nat := t.current_systick

/-- Source `Timer::is_systick_pending` (test configuration): load of the
emulated `PENDST` bit. -/
def Timer.is_systick_pending (t : Timer) : Bool := t.pendst_is_pending

/-- Source `Timer::read_systick_countflag` (test configuration):
`swap(false)` on the emulated `COUNTFLAG` — returns the old value and
clears the flag, so this primitive writes to the state. -/
def Timer.read_systick_countflag (t : Timer) : Bool × Timer :=
  (t.systick_has_wrapped, { t with systick_has_wrapped := false })

/-- Source `Timer::systick_handler`: clear `COUNTFLAG`, increment the low
wrap counter (wrapping at `2^32`), and if the pre-increment low counter was
`u32::MAX` increment the high counter (wrapping at `2^32`). -/
def Timer.systick_handler (t : Timer) : Timer :=
  let t1 := (t.read_systick_countflag).2
  let inner := t1.inner_wraps
  let t2 := { t1 with inner_wraps := (inner + 1) % U32 }
  if inner = U32 - 1 then
    { t2 with outer_wraps := (t2.outer_wraps + 1) % U32 }
  else t2

/-- The 64-bit composite `(out1 << 32) | in1` assembled by `now()` from the
two wrap-counter loads. -/
def wraps64 (out inn : Nat) : Nat := (out <<< 32) ||| inn

/-- The composite wrap count held in a timer state. -/
def Timer.wrapsOf (t : Timer) : Nat := wraps64 t.outer_wraps t.inner_wraps

/-- Source: the scaling step at the end of `Timer::now` (both
implementations).  `overflowing_mul` wraps the product modulo `2^64` and
reports overflow; the fast path shifts the wrapped product (equal to the
exact product exactly when no overflow occurred, which is the branch
condition), the fallback path computes the exact 128-bit product, shifts,
and truncates to 64 bits. -/
def Timer.scaleCycles (t : Timer) (total_cycles : Nat) : Nat :=
  let prod := total_cycles * t.multiplier
  if prod < U64 then (prod % U64) >>> t.shift
  else (prod >>> t.shift) % U64

/-- Source: the tail of the loop body of `Timer::now`
(`systick-timer/src/timer.rs`) once a stable snapshot is held (all three
wrap-counter read pairs returned `wraps_pre`): wrap determination from
`PENDST` and the two `VAL` reads, one-wrap compensation, saturating cycle
accumulation, and scaling.  `reload + 1` cannot overflow `u64` because the
reload value is a `u32`; `wraps_pre + 1` is a `u64` addition and is reduced
modulo `2^64`. -/
def Timer.nowSnap (t : Timer) (wraps_pre val_before val_after : Nat)
    (is_pending : Bool) : Nat :=
  let reload := t.reload_value
  let wrap_occurred := is_pending || decide (val_after > val_before)
  let wv : Nat × Nat :=
    if wrap_occurred then ((wraps_pre + 1) % U64, val_after)
    else (wraps_pre, val_after)
  let total_cycles := satAdd64 (satMul64 wv.1 (reload + 1)) (sub64 reload wv.2)
  t.scaleCycles total_cycles

/-- Source: one iteration of the read-protocol loop of `Timer::now`
(`systick-timer/src/timer.rs`), with the primitive calls in source order on
the (sequentially unchanging) state.  `none` models the two `continue`
(retry) branches; `some (ticks, s)` models `return` with the state `s` the
call leaves behind.  The atomic loads and the `PENDST`/`VAL` reads do not
modify the state, and `now` never calls `read_systick_countflag`. -/
def Timer.nowST (t : Timer) : Option (Nat × Timer) :=
  let in1 := t.inner_wraps
  let out1 := t.outer_wraps
  let wraps_pre := wraps64 out1 in1
  let val_before := t.get_syst
  let in2 := t.inner_wraps
  let out2 := t.outer_wraps
  let wraps_post := wraps64 out2 in2
  if wraps_pre ≠ wraps_post then none
  else
    let is_pending := t.is_systick_pending
    let val_after := t.get_syst
    let in3 := t.inner_wraps
    let out3 := t.outer_wraps
    let wraps_final := wraps64 out3 in3
    if wraps_final ≠ wraps_pre then none
    else some (t.nowSnap wraps_pre val_before val_after is_pending, t)

/-- Source `Timer::now` (`systick-timer/src/timer.rs`) evaluated on a fixed
state (no handler interleaved): the loop returns on its first iteration, so
the `getD` default is unreachable. -/
def Timer.now (t : Timer) : Nat := ((t.nowST).map Prod.fst).getD 0

/-- Source: `Timer::now` of the root crate (`src/timer.rs`), the older
COUNTFLAG based read protocol, evaluated sequentially (so the two
wrap-counter read pairs agree and the `wraps_pre == wraps_post` branch
calls `read_systick_countflag`).  Returns the tick count together with the
state the call leaves behind: unlike the PendST protocol, this protocol
consumes the read-clear `COUNTFLAG`, so the returned state may differ from
the input state. -/
def Timer.nowCF (t : Timer) : Nat × Timer :=
  let reload := t.reload_value
  let in1 := t.inner_wraps
  let out1 := t.outer_wraps
  let wraps_pre := wraps64 out1 in1
  let v1 := t.get_syst
  let in2 := t.inner_wraps
  let out2 := t.outer_wraps
  let wraps_post := wraps64 out2 in2
  let st : (Nat × Nat) × Timer :=
    if wraps_pre = wraps_post then
      let fb := t.read_systick_countflag
      if fb.1 then (((wraps_pre + 1) % U64, fb.2.get_syst), fb.2)
      else ((wraps_pre, v1), fb.2)
    else ((wraps_post, t.get_syst), t)
  let total_cycles := satAdd64 (satMul64 st.1.1 (reload + 1)) (sub64 reload st.1.2)
  (st.2.scaleCycles total_cycles, st.2)

/-- Source `Timer::diagnose_timing_violation`, with the `for` loop over
`observed_periods in 1..=3` unrolled.  For any `u32` reload value every
intermediate value fits in 64 bits (`(reload+1)·10^9 ≤ 2^32·10^9 < 2^64`,
and at most `3·` that plus a 1-percent tolerance), so plain `Nat`
arithmetic coincides with the source's `u64` arithmetic; `saturating_sub`
on `Nat` is `Nat` subtraction, which is itself truncating. -/
def Timer.diagnose_timing_violation (t : Timer)
    (current_time previous_time systick_freq : Nat) : Option Nat :=
  if previous_time ≤ current_time then none
  else
    let backwards_jump := previous_time - current_time
    let wrap_period_ns := ((t.reload_value + 1) * 1000000000) / systick_freq
    let tolerance := wrap_period_ns / 100
    let e1 := 1 * wrap_period_ns
    if e1 - tolerance ≤ backwards_jump ∧ backwards_jump ≤ e1 + tolerance then
      some (1 + 1)
    else
      let e2 := 2 * wrap_period_ns
      if e2 - tolerance ≤ backwards_jump ∧ backwards_jump ≤ e2 + tolerance then
        some (2 + 1)
      else
        let e3 := 3 * wrap_period_ns
        if e3 - tolerance ≤ backwards_jump ∧ backwards_jump ≤ e3 + tolerance then
          some (3 + 1)
        else none

/-- Source: the search loop of `Timer::compute_shift`, walking the
candidate shifts in increasing order.  The multiplier at shift `s` is
`(tick_hz << s) / systick_freq` in `u64` arithmetic, so the shifted value
is reduced modulo `2^64`.  An empty candidate list means the loop ran past
shift 63 with multiplier still zero and the next `tick_hz << 64` faults
(shift overflow), modelled as `none`. -/
def shiftSearch (tick_hz systick_freq : Nat) : List Nat → Option Nat
  | [] => none
  | s :: rest =>
    if tick_hz * 2 ^ s % U64 / systick_freq = 0 then
      shiftSearch tick_hz systick_freq rest
    else some s

/-- Source `Timer::compute_shift`: start at shift 32 and search up to shift
63.  `none` models the two construction-time faults: division by zero when
`systick_freq = 0`, and the shift-overflow fault when every shift in
`[32, 63]` gives multiplier zero. -/
def compute_shift (tick_hz systick_freq : Nat) : Option Nat :=
  if systick_freq = 0 then none
  else shiftSearch tick_hz systick_freq (List.range' 32 32)

/-- Source `Timer::new`: validate the reload value, compute the shift and
the multiplier, and return a timer with both wrap counters zero and the
emulated hardware registers cleared.  The construction-time panics are
modelled as `none`. -/
def Timer.new (tick_hz reload_value systick_freq : Nat) : Option Timer :=
  if 16777215 < reload_value then none
  else if reload_value = 0 then none
  else
    match compute_shift tick_hz systick_freq with
    | none => none
    | some shift =>
      let multiplier := tick_hz * 2 ^ shift % U64 / systick_freq
      some { inner_wraps := 0, outer_wraps := 0, reload_value := reload_value,
             multiplier := multiplier, shift := shift, current_systick := 0,
             systick_has_wrapped := false, pendst_is_pending := false }

/-! ### The interleaving model (spec section 8)

Three step processes act on one timer: a hardware driver that decrements
the emulated `VAL` and at zero reloads it to `R` and sets `PENDST`, an ISR
driver that — when `PENDST` is set — clears it and calls
`systick_handler`, and an observer that calls `now()`.  A schedule is a
list of steps; each `obs` step records one observer result. -/

/-- One step of one of the three processes. -/
inductive Proc where
  | hw : Proc
  | isr : Proc
  | obs : Proc
deriving Repr, DecidableEq

/-- Hardware driver step: decrement `VAL`; at zero reload it to `R` and set
`PENDST`. -/
def hwStep (t : Timer) : Timer :=
  if t.current_systick = 0 then
    { t with current_systick := t.reload_value, pendst_is_pending := true }
  else { t with current_systick := t.current_systick - 1 }

/-- ISR driver step: when `PENDST` is set, clear it (hardware clears the
bit on interrupt entry) and run `systick_handler`; otherwise do nothing. -/
def isrStep (t : Timer) : Timer :=
  if t.pendst_is_pending then
    Timer.systick_handler { t with pendst_is_pending := false }
  else t

/-- The state transition of one scheduled step (an `obs` step does not
change the state). -/
def stepP : Proc → Timer → Timer
  | .hw, t => hwStep t
  | .isr, t => isrStep t
  | .obs, t => t

/-- The observer results collected along a schedule. -/
def outputs : List Proc → Timer → List Nat
  | [], _ => []
  | p :: rest, t =>
    if p = Proc.obs then t.now :: outputs rest t
    else outputs rest (stepP p t)

/-- Claim C1 as stated: for every configuration accepted by construction
and every schedule of hardware-driver, ISR-driver and observer steps,
consecutive observer results are non-decreasing. -/
def monotoneAllSchedules : Prop :=
  ∀ tick_hz reload systick_freq t,
    Timer.new tick_hz reload systick_freq = some t →
    ∀ procs : List Proc, List.Chain' (· ≤ ·) (outputs procs t)

/-- The timer produced by `Timer::new(1000, 100, 1000)` (the configuration
of the spec's monotonicity vectors): multiplier `2^32`, shift 32, so one
output tick per source cycle. -/
def t100 : Timer :=
  { inner_wraps := 0, outer_wraps := 0, reload_value := 100,
    multiplier := 4294967296, shift := 32, current_systick := 0,
    systick_has_wrapped := false, pendst_is_pending := false }

/-- Ghost cycle abstraction for the interleaving model: the one-wrap
compensated wrap count times the wrap period, plus the cycles elapsed in
the current period — in exact `Nat` arithmetic, without saturation. -/
def cyc (t : Timer) : Nat :=
  (t.wrapsOf + if t.pendst_is_pending then 1 else 0) * (t.reload_value + 1)
    + (t.reload_value - t.current_systick)

/-! ### Basic arithmetic lemmas about the embedded operations -/

theorem wraps64_eq (out inn : Nat) (h : inn < U32) :
    wraps64 out inn = out * U32 + inn := by
  have h2 : inn < 2 ^ 32 := by simpa [U32] using h
  calc wraps64 out inn = 2 ^ 32 * out ||| inn := by
        rw [wraps64, Nat.shiftLeft_eq, Nat.mul_comm]
    _ = 2 ^ 32 * out + inn := (Nat.mul_add_lt_is_or h2 out).symm
    _ = out * U32 + inn := by rw [Nat.mul_comm]; norm_num [U32]

theorem wrapsOf_eq (t : Timer) (hi : t.inner_wraps < U32) :
    t.wrapsOf = t.outer_wraps * U32 + t.inner_wraps :=
  wraps64_eq _ _ hi

theorem wrapsOf_lt (t : Timer) (hi : t.inner_wraps < U32)
    (ho : t.outer_wraps < U32) : t.wrapsOf < U64 := by
  rw [wrapsOf_eq t hi]
  unfold U32 at *
  unfold U64
  omega

theorem satAdd64_satMul64 (a b c : Nat) (hc : c ≤ U64 - 1) :
    satAdd64 (satMul64 a b) c = min (a * b + c) (U64 - 1) := by
  unfold satAdd64 satMul64 U64 at *
  simp only [Nat.min_def]
  split_ifs <;> omega

theorem sub64_eq (a b : Nat) (hb : b ≤ a) (ha : a < U64) :
    sub64 a b = a - b := by
  unfold sub64 U64 at *
  omega

theorem scaleCycles_eq (t : Timer) (c : Nat) :
    t.scaleCycles c = ((c * t.multiplier) >>> t.shift) % U64 := by
  unfold Timer.scaleCycles
  by_cases h : c * t.multiplier < U64
  · simp only [if_pos h]
    have h2 : (c * t.multiplier) >>> t.shift < U64 :=
      lt_of_le_of_lt
        (by rw [Nat.shiftRight_eq_div_pow]; exact Nat.div_le_self _ _) h
    rw [Nat.mod_eq_of_lt h, Nat.mod_eq_of_lt h2]
  · simp only [if_neg h]

theorem scaleCycles_mono (t : Timer) {c1 c2 : Nat} (h : c1 ≤ c2)
    (hfit : (c2 * t.multiplier) >>> t.shift < U64) :
    t.scaleCycles c1 ≤ t.scaleCycles c2 := by
  rw [scaleCycles_eq, scaleCycles_eq]
  have hm : (c1 * t.multiplier) >>> t.shift ≤ (c2 * t.multiplier) >>> t.shift := by
    simp only [Nat.shiftRight_eq_div_pow]
    exact Nat.div_le_div_right (Nat.mul_le_mul_right _ h)
  rw [Nat.mod_eq_of_lt hfit, Nat.mod_eq_of_lt (lt_of_le_of_lt hm hfit)]
  exact hm

/-! ### The handler as a step on the wrap counters -/

theorem systick_handler_fields (t : Timer) :
    (t.systick_handler).inner_wraps = (t.inner_wraps + 1) % U32 ∧
    (t.systick_handler).outer_wraps =
      (if t.inner_wraps = U32 - 1 then (t.outer_wraps + 1) % U32
       else t.outer_wraps) ∧
    (t.systick_handler).reload_value = t.reload_value ∧
    (t.systick_handler).multiplier = t.multiplier ∧
    (t.systick_handler).shift = t.shift ∧
    (t.systick_handler).current_systick = t.current_systick ∧
    (t.systick_handler).systick_has_wrapped = false ∧
    (t.systick_handler).pendst_is_pending = t.pendst_is_pending := by
  unfold Timer.systick_handler Timer.read_systick_countflag
  by_cases hmax : t.inner_wraps = U32 - 1 <;> simp [hmax]

theorem systick_handler_wrapsOf (t : Timer) (hi : t.inner_wraps < U32)
    (ho : t.outer_wraps < U32) :
    (t.systick_handler).wrapsOf = (t.wrapsOf + 1) % U64 ∧
    (t.systick_handler).inner_wraps < U32 ∧
    (t.systick_handler).outer_wraps < U32 := by
  obtain ⟨h1, h2, -⟩ := systick_handler_fields t
  have hi2 : (t.systick_handler).inner_wraps < U32 := by
    rw [h1]; exact Nat.mod_lt _ (by unfold U32; omega)
  have ho2 : (t.systick_handler).outer_wraps < U32 := by
    rw [h2]
    split
    · exact Nat.mod_lt _ (by unfold U32; omega)
    · exact ho
  refine ⟨?_, hi2, ho2⟩
  rw [wrapsOf_eq _ hi2, wrapsOf_eq t hi, h1, h2]
  by_cases hmax : t.inner_wraps = U32 - 1 <;>
    simp only [hmax, if_pos, if_neg, if_true, if_false] <;>
    unfold U32 U64 at * <;> omega

/-! ### Reduction of `now()` on a quiescent state -/

theorem nowST_eq (t : Timer) :
    t.nowST = some (t.nowSnap t.wrapsOf t.current_systick t.current_systick
      t.pendst_is_pending, t) := by
  unfold Timer.nowST
  simp [Timer.get_syst, Timer.is_systick_pending, Timer.wrapsOf]

theorem now_eq (t : Timer) :
    t.now = t.nowSnap t.wrapsOf t.current_systick t.current_systick
      t.pendst_is_pending := by
  rw [Timer.now, nowST_eq]
  rfl

theorem nowSnap_eq_min (t : Timer) (w vb va : Nat) (p : Bool)
    (hw : w < U64) (hva : va ≤ t.reload_value) (hR : t.reload_value < U32) :
    t.nowSnap w vb va p =
      t.scaleCycles (min
        ((w + if p = true ∨ vb < va then 1 else 0) % U64
          * (t.reload_value + 1) + (t.reload_value - va)) (U64 - 1)) := by
  have hRU : t.reload_value - va ≤ U64 - 1 := by unfold U32 U64 at *; omega
  have hsub : sub64 t.reload_value va = t.reload_value - va :=
    sub64_eq _ _ hva (by unfold U32 U64 at *; omega)
  by_cases hcond : p = true ∨ vb < va
  · have hb : (p || decide (va > vb)) = true := by
      rcases hcond with h | h
      · simp [h]
      · simp [h]
    simp only [Timer.nowSnap, hb, if_pos hcond, if_true]
    rw [hsub, satAdd64_satMul64 _ _ _ hRU]
  · have hb : (p || decide (va > vb)) = false := by
      push_neg at hcond
      simp only [Bool.or_eq_false_iff, decide_eq_false_iff_not, Nat.not_lt]
      exact ⟨by simpa using hcond.1, hcond.2⟩
    simp only [Timer.nowSnap, hb, if_neg hcond, if_false, Bool.false_eq_true]
    rw [hsub, satAdd64_satMul64 _ _ _ hRU]
    simp only [Nat.add_zero, Nat.mod_eq_of_lt hw]

theorem now_eq_scale_min (t : Timer) (hi : t.inner_wraps < U32)
    (ho : t.outer_wraps < U32) (hv : t.current_systick ≤ t.reload_value)
    (hR : t.reload_value < U32) :
    t.now = t.scaleCycles (min
      ((t.wrapsOf + if t.pendst_is_pending = true then 1 else 0) % U64
        * (t.reload_value + 1) + (t.reload_value - t.current_systick))
      (U64 - 1)) := by
  rw [now_eq, nowSnap_eq_min t _ _ _ _ (wrapsOf_lt t hi ho) hv hR]
  have : (t.pendst_is_pending = true ∨
      t.current_systick < t.current_systick) ↔ t.pendst_is_pending = true := by
    simp
  rw [if_congr this rfl rfl]

theorem now_eq_scale_cyc (t : Timer) (hi : t.inner_wraps < U32)
    (ho : t.outer_wraps < U32) (hv : t.current_systick ≤ t.reload_value)
    (hR : t.reload_value < U32)
    (hp : t.pendst_is_pending = true → t.wrapsOf + 1 < U64) :
    t.now = t.scaleCycles (min (cyc t) (U64 - 1)) := by
  rw [now_eq_scale_min t hi ho hv hR, cyc]
  have hlt : t.wrapsOf + (if t.pendst_is_pending = true then 1 else 0) < U64 := by
    by_cases hpp : t.pendst_is_pending = true
    · simpa [hpp] using hp hpp
    · have := wrapsOf_lt t hi ho
      simp [hpp]
      omega
  rw [Nat.mod_eq_of_lt hlt]

/-- The timer produced by `Timer::new(1000, 47999, 48_000_000)` (the doc
example: millisecond ticks on a 48 MHz clock). -/
def t48 : Timer :=
  { inner_wraps := 0, outer_wraps := 0, reload_value := 47999,
    multiplier := 89478, shift := 32, current_systick := 0,
    systick_has_wrapped := false, pendst_is_pending := false }

/-! ### Claim theorems -/

/-- C10: on a fixed timer state (no handler invocation interleaved), the
read-protocol loop of `now()` terminates on its first iteration: all three
wrap-counter read pairs yield the same composite, neither restart branch
is taken, and the call returns — the sequential embedding of `now()` is a
total function of the timer state. -/
theorem now_first_iteration : ∀ t : Timer, t.nowST = some (t.now, t) := by
  intro t
  rw [nowST_eq, now_eq]

/-- C8 (amended): the PendST-based `now()` of the `systick-timer` crate
performs no writes: it leaves the whole timer state (wrap counters,
configuration fields, and hardware-visible registers) unchanged, never
invokes the read-and-clear of `COUNTFLAG`, and its result is independent
of the `COUNTFLAG` value, reading only the wrap counters, `VAL` and
`PENDST`.  The older `now()` of the root crate does invoke the
read-and-clear; see the counterexample. -/
theorem now_performs_no_writes :
    ∀ (t : Timer) (b : Bool),
      (t.nowST).map Prod.snd = some t ∧
      Timer.now { t with systick_has_wrapped := b } = Timer.now t := by
  intro t b
  refine ⟨by rw [nowST_eq]; rfl, ?_⟩
  rw [now_eq, now_eq]
  rfl

/-- C8 counterexample: the COUNTFLAG-based `now()` of the root crate
(`src/timer.rs`, cited by the claim) does invoke the read-and-clear of
`COUNTFLAG`: run on a state with the flag set, it returns a state with the
flag cleared — the call writes to the hardware-visible state. -/
theorem now_performs_no_writes_cex :
    (({ t100 with systick_has_wrapped := true } : Timer).nowCF).2 ≠
      { t100 with systick_has_wrapped := true } ∧
    (({ t100 with systick_has_wrapped := true } : Timer).nowCF).2.systick_has_wrapped
      = false := by
  exact ⟨by decide, by decide⟩

/-- C6: for every configuration produced by construction the two scaling
paths of `now()` agree: whenever `C·M` does not overflow 64 bits, the fast
path `(C·M) >> s` equals the 128-bit fallback `((u128 C)·(u128 M)) >> s`
truncated to 64 bits; moreover the scaling step unconditionally equals the
fallback formula, so the returned tick value does not depend on which path
is taken. -/
theorem scaling_paths_agree :
    ∀ tick_hz reload systick_freq t,
      Timer.new tick_hz reload systick_freq = some t →
      ∀ c, (c * t.multiplier < U64 →
          ((c * t.multiplier) % U64) >>> t.shift
            = ((c * t.multiplier) >>> t.shift) % U64) ∧
        t.scaleCycles c = ((c * t.multiplier) >>> t.shift) % U64 := by
  intro tick_hz reload systick_freq t ht c
  refine ⟨fun h => ?_, scaleCycles_eq t c⟩
  have h2 : (c * t.multiplier) >>> t.shift < U64 :=
    lt_of_le_of_lt
      (by rw [Nat.shiftRight_eq_div_pow]; exact Nat.div_le_self _ _) h
  rw [Nat.mod_eq_of_lt h, Nat.mod_eq_of_lt h2]

/-- C6 witness: the paths agree at the documented 48 MHz configuration and
a concrete cycle count on the fast path. -/
theorem scaling_paths_agree_witness :
    Timer.new 1000 47999 48000000 = some t48 ∧
    10 * t48.multiplier < U64 ∧
    ((10 * t48.multiplier) % U64) >>> t48.shift
      = ((10 * t48.multiplier) >>> t48.shift) % U64 :=
  ⟨by decide, by decide,
    (scaling_paths_agree 1000 47999 48000000 t48 (by decide) 10).1 (by decide)⟩

/-- C7: `now()` never fails: on every state satisfying the adapter
contract (counter reading at most the reload value, counters in `u32`
range), `now()` evaluates to the scaling of the saturated cycle count
`min(W·(R+1) + (R−v), 2^64−1)`: overflow saturates at `2^64 − 1` instead
of wrapping backwards or trapping, and the subtraction `R − v` and the
shift cannot fault. -/
theorem now_never_fails (t : Timer) (hi : t.inner_wraps < U32)
    (ho : t.outer_wraps < U32) (hv : t.current_systick ≤ t.reload_value)
    (hR : t.reload_value < U32) :
    t.now = t.scaleCycles (min
      ((t.wrapsOf + if t.pendst_is_pending = true then 1 else 0) % U64
        * (t.reload_value + 1) + (t.reload_value - t.current_systick))
      (U64 - 1)) :=
  now_eq_scale_min t hi ho hv hR

/-- A mid-period state of the reload-100 timer (`VAL = 40`). -/
def t100v40 : Timer := { t100 with current_systick := 40 }

/-- The reload-100 timer just before a wrap (`VAL = 1`). -/
def t100pre : Timer := { t100 with current_systick := 1 }

/-- The reload-100 timer just after a hardware wrap the handler has not
yet serviced (`VAL` reloaded to 100, `PENDST` set). -/
def t100post : Timer :=
  { t100 with current_systick := 100, pendst_is_pending := true }

/-- C7 witness: the saturated-cycle formula evaluated at a concrete
mid-period state of the reload-100 timer. -/
theorem now_never_fails_witness :
    t100v40.inner_wraps < U32 ∧ t100v40.outer_wraps < U32 ∧
    t100v40.current_systick ≤ t100v40.reload_value ∧
    t100v40.reload_value < U32 ∧
    t100v40.now = t100v40.scaleCycles (min
      ((t100v40.wrapsOf + if t100v40.pendst_is_pending = true then 1 else 0) % U64
        * (t100v40.reload_value + 1)
        + (t100v40.reload_value - t100v40.current_systick)) (U64 - 1)) :=
  ⟨by decide, by decide, by decide, by decide,
    now_never_fails t100v40 (by decide) (by decide) (by decide) (by decide)⟩

/-- C4 helper: `N` handler invocations advance the composite wrap count by
`N` modulo `2^64` and keep both counters in `u32` range. -/
theorem systick_handler_iterate (N : Nat) : ∀ t : Timer,
    t.inner_wraps < U32 → t.outer_wraps < U32 →
    (Timer.systick_handler^[N] t).wrapsOf = (t.wrapsOf + N) % U64 ∧
    (Timer.systick_handler^[N] t).inner_wraps < U32 ∧
    (Timer.systick_handler^[N] t).outer_wraps < U32 := by
  induction N with
  | zero =>
    intro t hi ho
    exact ⟨by simpa using (Nat.mod_eq_of_lt (wrapsOf_lt t hi ho)).symm, hi, ho⟩
  | succ n ih =>
    intro t hi ho
    rw [Function.iterate_succ_apply]
    obtain ⟨hw, hi2, ho2⟩ := systick_handler_wrapsOf t hi ho
    obtain ⟨ihw, ihi, iho⟩ := ih _ hi2 ho2
    refine ⟨?_, ihi, iho⟩
    rw [ihw, hw]
    unfold U64
    omega

/-- C4: starting with both wrap counters zero, after exactly `N`
sequential handler invocations the composite wrap count is `N mod 2^64`;
the high counter moves exactly on the invocations whose pre-increment low
counter is `2^32 − 1`; and one invocation from the all-ones state leaves
both counters zero. -/
theorem wrap_counter_composition :
    (∀ (N : Nat) (t : Timer), t.inner_wraps = 0 → t.outer_wraps = 0 →
      (Timer.systick_handler^[N] t).wrapsOf = N % U64) ∧
    (∀ t : Timer, t.inner_wraps < U32 → t.outer_wraps < U32 →
      ((t.systick_handler).outer_wraps ≠ t.outer_wraps ↔
        t.inner_wraps = U32 - 1)) ∧
    (∀ t : Timer, t.inner_wraps = U32 - 1 → t.outer_wraps = U32 - 1 →
      (t.systick_handler).inner_wraps = 0 ∧
      (t.systick_handler).outer_wraps = 0) := by
  refine ⟨?_, ?_, ?_⟩
  · intro N t hi ho
    have h0 : t.inner_wraps < U32 := by rw [hi]; unfold U32; omega
    have h1 : t.outer_wraps < U32 := by rw [ho]; unfold U32; omega
    have := (systick_handler_iterate N t h0 h1).1
    rw [this, wrapsOf_eq t h0, hi, ho]
    simp
  · intro t hi ho
    obtain ⟨-, h2, -⟩ := systick_handler_fields t
    rw [h2]
    by_cases hmax : t.inner_wraps = U32 - 1
    · rw [if_pos hmax]
      refine ⟨fun _ => hmax, fun _ => ?_⟩
      unfold U32 at *
      omega
    · simp [hmax]
  · intro t hi ho
    obtain ⟨h1, h2, -⟩ := systick_handler_fields t
    rw [h1, h2, hi, ho]
    unfold U32
    norm_num

/-- C4 witness: five handler invocations from the freshly constructed
reload-100 timer give composite wrap count `5 mod 2^64`. -/
theorem wrap_counter_composition_witness :
    t100.inner_wraps = 0 ∧ t100.outer_wraps = 0 ∧
    (Timer.systick_handler^[5] t100).wrapsOf = 5 % U64 :=
  ⟨rfl, rfl, wrap_counter_composition.1 5 t100 rfl rfl⟩

/-- C3: with a stable snapshot, `now()` deems a wrap observed exactly when
`PENDST` is set or the second counter read exceeds the first, and then
computes time from wrap count `W_pre + 1` with counter reading
`val_after`; otherwise from `W_pre` with `val_after`.  Concretely, at
reload 100 with matching input and output frequencies, `now()` at
`VAL = 1` returns 99 and, after the hardware wrap (`VAL = 100`, `PENDST`
set, handler not yet run), returns 101. -/
theorem wrap_detection :
    (∀ (t : Timer) (w vb va : Nat) (p : Bool), w < U64 →
      va ≤ t.reload_value → t.reload_value < U32 →
      t.nowSnap w vb va p = t.scaleCycles (min
        ((w + if p = true ∨ vb < va then 1 else 0) % U64 * (t.reload_value + 1)
          + (t.reload_value - va)) (U64 - 1))) ∧
    Timer.now t100pre = 99 ∧
    Timer.now t100post = 101 :=
  ⟨fun t w vb va p hw hva hR => nowSnap_eq_min t w vb va p hw hva hR,
    by decide, by decide⟩

/-- C3 witness: the wrap-detection equation instantiated at a concrete
snapshot in which the second counter read exceeds the first. -/
theorem wrap_detection_witness :
    (2 : Nat) < U64 ∧ (7 : Nat) ≤ t100.reload_value ∧
    t100.reload_value < U32 ∧
    t100.nowSnap 2 5 7 false = t100.scaleCycles (min
      ((2 + if false = true ∨ 5 < 7 then 1 else 0) % U64 * (t100.reload_value + 1)
        + (t100.reload_value - 7)) (U64 - 1)) :=
  ⟨by decide, by decide, by decide,
    wrap_detection.1 t100 2 5 7 false (by decide) (by decide) (by decide)⟩

/-- C9: for a timer whose reload value is a `u32` and a positive source
frequency, `diagnose_timing_violation` returns `none` whenever
`t_now ≥ t_prev`; and for `t_now < t_prev` it returns `some (k + 1)`
exactly when the backwards jump `t_prev − t_now`, taken in nanoseconds,
falls within the integer 1-percent tolerance band around `k · P` for some
`k ∈ {1, 2, 3}`, where `P = (R+1)·10^9 / f` nanoseconds is one wrap
period; in every other case it returns `none`. -/
theorem diagnose_spec (t : Timer) (current previous f : Nat)
    (hr : t.reload_value < U32) (hf : 0 < f) :
    (previous ≤ current →
      t.diagnose_timing_violation current previous f = none) ∧
    (current < previous → ∀ res,
      (t.diagnose_timing_violation current previous f = some res ↔
        ∃ k, 1 ≤ k ∧ k ≤ 3 ∧
          k * ((t.reload_value + 1) * 1000000000 / f)
            - (t.reload_value + 1) * 1000000000 / f / 100 ≤ previous - current ∧
          previous - current ≤ k * ((t.reload_value + 1) * 1000000000 / f)
            + (t.reload_value + 1) * 1000000000 / f / 100 ∧
          res = k + 1)) := by
  constructor
  · intro h
    simp only [Timer.diagnose_timing_violation, if_pos h]
  · intro h res
    simp only [Timer.diagnose_timing_violation, if_neg (by omega : ¬ previous ≤ current)]
    generalize hP : (t.reload_value + 1) * 1000000000 / f = P
    have hJ1 : 1 ≤ previous - current := by omega
    constructor
    · intro hsome
      split_ifs at hsome with h1 h2 h3
      · exact ⟨1, by omega, by omega, by omega, by omega,
          by simpa using hsome.symm⟩
      · exact ⟨2, by omega, by omega, by omega, by omega,
          by simpa using hsome.symm⟩
      · exact ⟨3, by omega, by omega, by omega, by omega,
          by simpa using hsome.symm⟩
    · rintro ⟨k, hk1, hk3, hlo, hhi, hres⟩
      interval_cases k
      · rw [if_pos (by omega)]
        simp [hres]
      · rw [if_neg (by omega), if_pos (by omega)]
        simp [hres]
      · rw [if_neg (by omega), if_neg (by omega), if_pos (by omega)]
        simp [hres]

/-- C9 witness: a backwards jump of exactly one wrap period of the
reload-100 timer at 1 kHz is classified as two total missed wraps. -/
theorem diagnose_spec_witness :
    t100.reload_value < U32 ∧ (0 : Nat) < 1000 ∧ (0 : Nat) < 101000000 ∧
    t100.diagnose_timing_violation 0 101000000 1000 = some 2 :=
  ⟨by decide, by decide, by decide,
    ((diagnose_spec t100 0 101000000 1000 (by decide) (by decide)).2
        (by decide) 2).mpr
      ⟨1, by decide, by decide, by decide, by decide, rfl⟩⟩

/-- The shift-search loop finds exactly the least candidate with a
positive multiplier. -/
theorem shiftSearch_some_iff (a f : Nat) : ∀ (len start s : Nat),
    (shiftSearch a f (List.range' start len) = some s ↔
      (start ≤ s ∧ s < start + len ∧ 0 < a * 2 ^ s % U64 / f ∧
        ∀ u, start ≤ u → u < s → a * 2 ^ u % U64 / f = 0)) := by
  intro len
  induction len with
  | zero =>
    intro start s
    constructor
    · intro h
      simp [shiftSearch] at h
    · rintro ⟨h1, h2, -⟩
      omega
  | succ n ih =>
    intro start s
    rw [List.range'_succ]
    by_cases h0 : a * 2 ^ start % U64 / f = 0
    · rw [shiftSearch, if_pos h0, ih (start + 1) s]
      constructor
      · rintro ⟨h1, h2, h3, h4⟩
        refine ⟨by omega, by omega, h3, fun u hu1 hu2 => ?_⟩
        rcases Nat.eq_or_lt_of_le hu1 with he | hl
        · rw [← he]; exact h0
        · exact h4 u hl hu2
      · rintro ⟨h1, h2, h3, h4⟩
        have hs : s ≠ start := by
          intro he
          rw [he] at h3
          omega
        exact ⟨by omega, by omega, h3, fun u hu1 hu2 => h4 u (by omega) hu2⟩
    · rw [shiftSearch, if_neg h0]
      constructor
      · intro h
        have he : start = s := by
          have := Option.some.inj h
          exact this
        subst he
        exact ⟨le_rfl, by omega, Nat.pos_of_ne_zero h0, fun u hu1 hu2 => by omega⟩
      · rintro ⟨h1, h2, h3, h4⟩
        rcases Nat.eq_or_lt_of_le h1 with he | hl
        · rw [he]
        · exact absurd (h4 start le_rfl hl) h0

/-- The shift-search loop returns `none` exactly when every candidate
gives multiplier zero. -/
theorem shiftSearch_none_iff (a f : Nat) : ∀ (len start : Nat),
    (shiftSearch a f (List.range' start len) = none ↔
      ∀ u, start ≤ u → u < start + len → a * 2 ^ u % U64 / f = 0) := by
  intro len
  induction len with
  | zero =>
    intro start
    constructor
    · intro h u hu1 hu2
      omega
    · intro h
      simp [shiftSearch]
  | succ n ih =>
    intro start
    rw [List.range'_succ]
    by_cases h0 : a * 2 ^ start % U64 / f = 0
    · rw [shiftSearch, if_pos h0, ih (start + 1)]
      constructor
      · intro h u hu1 hu2
        rcases Nat.eq_or_lt_of_le hu1 with he | hl
        · rw [← he]; exact h0
        · exact h u hl (by omega)
      · intro h u hu1 hu2
        exact h u (by omega) (by omega)
    · rw [shiftSearch, if_neg h0]
      constructor
      · intro h
        exact absurd h (by simp)
      · intro h
        exact absurd (h start le_rfl (by omega)) h0

/-- C5: construction with `new(tick_hz, reload_value, systick_freq)` fails
exactly when the reload value is zero or exceeds `2^24 − 1`, the source
frequency is zero, or no shift `s ≤ 63` yields a multiplier of at least 1;
in every other case it succeeds and returns a timer with both wrap
counters zero, shift equal to the smallest `s` in `[32, 63]` such that
`⌊(tick_hz << s) / systick_freq⌋ > 0`, and that quotient as multiplier,
which fits in 64 bits. -/
theorem new_construction_spec (a r f : Nat) :
    ((Timer.new a r f).isSome = true ↔
      (1 ≤ r ∧ r ≤ 16777215 ∧ f ≠ 0 ∧
        ∃ s, 32 ≤ s ∧ s ≤ 63 ∧ 0 < a * 2 ^ s % U64 / f)) ∧
    (∀ t, Timer.new a r f = some t →
      t.inner_wraps = 0 ∧ t.outer_wraps = 0 ∧ t.reload_value = r ∧
      t.multiplier = a * 2 ^ t.shift % U64 / f ∧
      t.multiplier < U64 ∧ 32 ≤ t.shift ∧ t.shift ≤ 63 ∧
      0 < a * 2 ^ t.shift % U64 / f ∧
      ∀ u, 32 ≤ u → u < t.shift → a * 2 ^ u % U64 / f = 0) := by
  by_cases hr1 : 16777215 < r
  · have hnew : Timer.new a r f = none := by
      unfold Timer.new
      rw [if_pos hr1]
    rw [hnew]
    constructor
    · constructor
      · intro h
        exact absurd h (by simp)
      · rintro ⟨-, h2, -⟩
        omega
    · intro t ht
      exact absurd ht (by simp)
  · by_cases hr0 : r = 0
    · have hnew : Timer.new a r f = none := by
        unfold Timer.new
        rw [if_neg hr1, if_pos hr0]
      rw [hnew]
      constructor
      · constructor
        · intro h
          exact absurd h (by simp)
        · rintro ⟨h1, -⟩
          omega
      · intro t ht
        exact absurd ht (by simp)
    · by_cases hf : f = 0
      · have hnew : Timer.new a r f = none := by
          unfold Timer.new compute_shift
          rw [if_neg hr1, if_neg hr0, if_pos hf]
        rw [hnew]
        constructor
        · constructor
          · intro h
            exact absurd h (by simp)
          · rintro ⟨-, -, h3, -⟩
            exact (h3 hf).elim
        · intro t ht
          exact absurd ht (by simp)
      · rcases hss : shiftSearch a f (List.range' 32 32) with - | s0
        · have hnew : Timer.new a r f = none := by
            unfold Timer.new compute_shift
            rw [if_neg hr1, if_neg hr0, if_neg hf, hss]
          rw [hnew]
          have hall := (shiftSearch_none_iff a f 32 32).mp hss
          constructor
          · constructor
            · intro h
              exact absurd h (by simp)
            · rintro ⟨-, -, -, s, hs1, hs2, hs3⟩
              have := hall s hs1 (by omega)
              omega
          · intro t ht
            exact absurd ht (by simp)
        · have hprops := (shiftSearch_some_iff a f 32 32 s0).mp hss
          have hnew : Timer.new a r f = some
              { inner_wraps := 0, outer_wraps := 0, reload_value := r,
                multiplier := a * 2 ^ s0 % U64 / f, shift := s0,
                current_systick := 0, systick_has_wrapped := false,
                pendst_is_pending := false } := by
            unfold Timer.new compute_shift
            rw [if_neg hr1, if_neg hr0, if_neg hf, hss]
          rw [hnew]
          obtain ⟨hp1, hp2, hp3, hp4⟩ := hprops
          constructor
          · constructor
            · intro _
              exact ⟨by omega, by omega, hf, s0, hp1, by omega, hp3⟩
            · intro _
              simp
          · intro t ht
            have he := Option.some.inj ht
            rw [← he]
            refine ⟨rfl, rfl, rfl, rfl, ?_, hp1, by show s0 ≤ 63; omega, hp3,
              fun u hu1 hu2 => hp4 u hu1 hu2⟩
            exact lt_of_le_of_lt (Nat.div_le_self _ _)
              (Nat.mod_lt _ (by unfold U64; omega))

/-- C5 witness: the documented 48 MHz millisecond configuration is
accepted by construction. -/
theorem new_construction_spec_witness :
    (Timer.new 1000 47999 48000000).isSome = true :=
  (new_construction_spec 1000 47999 48000000).1.mpr
    ⟨by decide, by decide, by decide, 32, by decide, by decide, by decide⟩

/-- Elimination lemma for a successful construction: the shape of the
returned timer. -/
theorem new_elim (a r f : Nat) (t : Timer) (ht : Timer.new a r f = some t) :
    t.inner_wraps = 0 ∧ t.outer_wraps = 0 ∧ t.reload_value = r ∧
    t.multiplier = a * 2 ^ t.shift % U64 / f ∧
    t.current_systick = 0 ∧ t.systick_has_wrapped = false ∧
    t.pendst_is_pending = false ∧ r ≠ 0 ∧ r ≤ 16777215 ∧ f ≠ 0 := by
  unfold Timer.new compute_shift at ht
  by_cases hr1 : 16777215 < r
  · rw [if_pos hr1] at ht
    cases ht
  rw [if_neg hr1] at ht
  by_cases hr0 : r = 0
  · rw [if_pos hr0] at ht
    cases ht
  rw [if_neg hr0] at ht
  by_cases hf : f = 0
  · rw [if_pos hf] at ht
    cases ht
  rw [if_neg hf] at ht
  rcases hss : shiftSearch a f (List.range' 32 32) with - | s0
  · rw [hss] at ht
    cases ht
  · rw [hss] at ht
    have he := Option.some.inj ht
    rw [← he]
    exact ⟨rfl, rfl, rfl, rfl, rfl, rfl, rfl, hr0, by omega, hf⟩

/-- A copy of a timer state holding composite wrap count `w` and counter
reading `v` (the hosted tests drive the timer into exactly such states by
storing to the counters and the emulated `VAL`). -/
def Timer.withCount (t : Timer) (w v : Nat) : Timer :=
  { t with inner_wraps := w % U32, outer_wraps := w / U32 % U32, current_systick := v }

theorem withCount_wrapsOf (t : Timer) (w v : Nat) (hw : w < U64) :
    (t.withCount w v).wrapsOf = w := by
  have hi : (t.withCount w v).inner_wraps < U32 := by
    simp only [Timer.withCount]
    exact Nat.mod_lt _ (by unfold U32; omega)
  rw [wrapsOf_eq _ hi]
  simp only [Timer.withCount]
  unfold U32 U64 at *
  omega

/-- Division respects cross-multiplied equality: if `p·d = q·b`, the two
rationals `p/b` and `q/d` coincide; their floors agree. -/
theorem div_cross_eq (p b q d : Nat) (hb : 0 < b) (hd : 0 < d)
    (h : p * d = q * b) : p / b = q / d := by
  apply Nat.le_antisymm
  · rw [Nat.le_div_iff_mul_le hd]
    have h2 : p / b * d * b ≤ q * b := by
      rw [← h]
      calc p / b * d * b = p / b * b * d := by ring
        _ ≤ p * d := Nat.mul_le_mul_right d (Nat.div_mul_le_self p b)
    exact Nat.le_of_mul_le_mul_right h2 hb
  · rw [Nat.le_div_iff_mul_le hb]
    have h2 : q / d * b * d ≤ p * d := by
      rw [h]
      calc q / d * b * d = q / d * d * b := by ring
        _ ≤ q * b := Nat.mul_le_mul_right b (Nat.div_mul_le_self q d)
    exact Nat.le_of_mul_le_mul_right h2 hd

/-- Claim C2 as stated: for every configuration accepted by construction
and every interval in which exactly `C` source cycles elapsed, the
difference of the two `now()` readings equals `⌊C · f_out / f_src⌋`
exactly. -/
def linearScalingExact : Prop :=
  ∀ a r f t, Timer.new a r f = some t →
    ∀ w1 v1 w2 v2 C, w1 < U64 → w2 < U64 → v1 ≤ r → v2 ≤ r →
      w1 * (r + 1) + (r - v1) + C = w2 * (r + 1) + (r - v2) →
      (t.withCount w2 v2).now - (t.withCount w1 v1).now = C * a / f

/-- The timer of `Timer::new(1, 5, 3)` (1 Hz output from a 3 Hz source):
multiplier `⌊2^32/3⌋ = 1431655765` at shift 32, a ratio strictly below
`1/3`. -/
def tC2 : Timer :=
  { inner_wraps := 0, outer_wraps := 0, reload_value := 5,
    multiplier := 1431655765, shift := 32, current_systick := 0,
    systick_has_wrapped := false, pendst_is_pending := false }

/-- C2 counterexample: with the accepted configuration
`new(1, 5, 3)`, an interval of exactly 3 source cycles from timer start
yields `t_end − t_start = 0`, while `⌊C · f_out / f_src⌋ = ⌊3/3⌋ = 1`:
the truncated multiplier loses one tick, so the scaling is not exact. -/
theorem linear_scaling_cex : ¬ linearScalingExact := by
  intro h
  have h2 := h 1 5 3 tC2 (by decide) 0 5 0 2 3 (by decide) (by decide)
    (by decide) (by decide) (by decide)
  revert h2
  decide

/-- C2 (amended): the scaling is exact when the precomputed ratio is exact
and the interval is phase-aligned: if `f_src` divides `f_out · 2^shift`
(which fits in 64 bits), the interval starts at a cycle count `c_1` with
`f_src ∣ c_1 · f_out` (for instance at timer start), and the cycle counts
and resulting ticks stay below `2^64`, then
`t_end − t_start = ⌊C · f_out / f_src⌋` — on both scaling paths. -/
theorem linear_scaling_amended (a r f : Nat) (t : Timer)
    (ht : Timer.new a r f = some t)
    (hfit : a * 2 ^ t.shift < U64)
    (hdvd : f ∣ a * 2 ^ t.shift) :
    ∀ w1 v1 w2 v2 C,
      v1 ≤ r → v2 ≤ r →
      w2 * (r + 1) + (r - v2) < U64 →
      (w2 * (r + 1) + (r - v2)) * a / f < U64 →
      f ∣ (w1 * (r + 1) + (r - v1)) * a →
      w1 * (r + 1) + (r - v1) + C = w2 * (r + 1) + (r - v2) →
      (t.withCount w2 v2).now - (t.withCount w1 v1).now = C * a / f := by
  intro w1 v1 w2 v2 C hv1 hv2 hc2 hticks hphase hC
  obtain ⟨-, -, hrel, hmul, -, -, hpend, hr0, hrle, hf0⟩ := new_elim a r f t ht
  have hfpos : 0 < f := Nat.pos_of_ne_zero hf0
  have hMexact : t.multiplier = a * 2 ^ t.shift / f := by
    rw [hmul, Nat.mod_eq_of_lt hfit]
  have hMf : t.multiplier * f = a * 2 ^ t.shift := by
    rw [hMexact]
    exact Nat.div_mul_cancel hdvd
  -- the scaling step computes `⌊c · f_out / f_src⌋` for every cycle count
  have hscale : ∀ c : Nat, t.scaleCycles c = c * a / f % U64 := by
    intro c
    rw [scaleCycles_eq, Nat.shiftRight_eq_div_pow]
    have := div_cross_eq (c * t.multiplier) (2 ^ t.shift) (c * a) f
      (Nat.pos_pow_of_pos _ (by omega)) hfpos
      (by rw [Nat.mul_assoc, hMf]; ring)
    rw [this]
  -- `now` on the two driven states
  have hnow : ∀ w v, v ≤ r → w * (r + 1) + (r - v) < U64 →
      (t.withCount w v).now = (w * (r + 1) + (r - v)) * a / f % U64 := by
    intro w v hv hcyc
    have hw : w < U64 := by
      have : w ≤ w * (r + 1) := Nat.le_mul_of_pos_right w (by omega)
      omega
    have hi : (t.withCount w v).inner_wraps < U32 := by
      simp only [Timer.withCount]
      exact Nat.mod_lt _ (by unfold U32; omega)
    have ho : (t.withCount w v).outer_wraps < U32 := by
      simp only [Timer.withCount]
      exact Nat.mod_lt _ (by unfold U32; omega)
    have hvle : (t.withCount w v).current_systick ≤ (t.withCount w v).reload_value := by
      simp only [Timer.withCount]
      rw [hrel]
      exact hv
    have hRlt : (t.withCount w v).reload_value < U32 := by
      simp only [Timer.withCount]
      rw [hrel]
      unfold U32
      omega
    have hp : (t.withCount w v).pendst_is_pending = true →
        (t.withCount w v).wrapsOf + 1 < U64 := by
      simp only [Timer.withCount]
      rw [hpend]
      intro hx
      cases hx
    rw [now_eq_scale_cyc _ hi ho hvle hRlt hp]
    have hcyceq : cyc (t.withCount w v) = w * (r + 1) + (r - v) := by
      unfold cyc
      rw [withCount_wrapsOf t w v hw]
      simp only [Timer.withCount]
      simp only [hrel, hpend]
      simp
    rw [hcyceq, Nat.min_eq_left (by omega)]
    have hsc : (t.withCount w v).scaleCycles = t.scaleCycles := by
      simp only [Timer.withCount]
      rfl
    rw [hsc, hscale]
  have hc1 : w1 * (r + 1) + (r - v1) < U64 := by omega
  have hticks1 : (w1 * (r + 1) + (r - v1)) * a / f < U64 := by
    have h3 : (w1 * (r + 1) + (r - v1)) * a / f ≤ (w2 * (r + 1) + (r - v2)) * a / f :=
      Nat.div_le_div_right (Nat.mul_le_mul_right a (by omega))
    omega
  rw [hnow w2 v2 hv2 hc2, hnow w1 v1 hv1 hc1]
  rw [Nat.mod_eq_of_lt hticks, Nat.mod_eq_of_lt hticks1]
  obtain ⟨k, hk⟩ := hphase
  rw [← hC]
  rw [Nat.add_mul, hk, Nat.mul_add_div hfpos, Nat.mul_div_cancel_left k hfpos]
  exact Nat.add_sub_cancel_left k (C * a / f)

/-- C2 witness: at the matched-frequency reload-100 configuration, an
interval of 150 cycles from start advances `now()` by exactly
`⌊150 · 1000 / 1000⌋ = 150`. -/
theorem linear_scaling_amended_witness :
    Timer.new 1000 100 1000 = some t100 ∧
    (1000 : Nat) * 2 ^ t100.shift < U64 ∧
    (1000 : Nat) ∣ 1000 * 2 ^ t100.shift ∧
    (t100.withCount 1 51).now - (t100.withCount 0 100).now = 150 * 1000 / 1000 :=
  ⟨by decide, by decide, ⟨4294967296, by decide⟩,
    linear_scaling_amended 1000 100 1000 t100 (by decide) (by decide)
      ⟨4294967296, by decide⟩ 0 100 1 51 150 (by decide) (by decide)
      (by decide) (by decide) (by decide) (by decide)⟩

/-- The starving schedule: one serviced wrap, then two hardware wraps with
the ISR driver never scheduled in between.  The observer reads 302 cycles
worth of ticks just before the second unserviced wrap and 202 just after
it: the one-wrap compensation cannot account for two pending wraps. -/
def cexSched : List Proc :=
  [Proc.hw, Proc.isr] ++ List.replicate 100 Proc.hw ++ [Proc.obs, Proc.hw, Proc.obs]
    ++ List.replicate 100 Proc.hw ++ [Proc.obs, Proc.hw, Proc.obs]

/-- C1 counterexample: monotonicity does not hold for all schedules.  On
the accepted configuration `new(1000, 100, 1000)` the starving schedule
produces observer results `[201, 202, 302, 202]` — the fourth observation
goes backwards, exactly the bounded-compensation limit the source code
itself documents. -/
theorem timer_monotonicity_cex : ¬ monotoneAllSchedules := by
  intro h
  have h2 := h 1000 100 1000 t100 (by decide) cexSched
  rw [show outputs cexSched t100 = [201, 202, 302, 202] from by decide] at h2
  simp only [List.chain'_cons, List.chain'_singleton] at h2
  omega

/-- Per-state invariant of the interleaving model: counters and the reload
value in `u32` range, counter reading within the period, and — when a wrap
is pending — headroom for the one-wrap compensation. -/
def InvB (t : Timer) : Bool :=
  decide (t.inner_wraps < U32) && decide (t.outer_wraps < U32) &&
    decide (t.current_systick ≤ t.reload_value) &&
    decide (t.reload_value < U32) &&
    (!t.pendst_is_pending || decide (t.wrapsOf + 1 < U64))

/-- Guard on a scheduled step, restricting schedules to the design
envelope: a hardware wrap fires only with no wrap still pending (the ISR
driver is not starved past one full wrap period) and below the `2^64`
composite limit, and an observation requires its scaled result to fit in
64 bits. -/
def okStepB : Proc → Timer → Bool
  | .hw, t => !decide (t.current_systick = 0) ||
      (!t.pendst_is_pending && decide (t.wrapsOf + 1 < U64))
  | .isr, _ => true
  | .obs, t => decide ((min (cyc t) (U64 - 1) * t.multiplier) >>> t.shift < U64)

/-- A schedule all of whose steps respect the guard, from a given state. -/
def okRunB : List Proc → Timer → Bool
  | [], _ => true
  | p :: rest, t => okStepB p t && okRunB rest (stepP p t)

theorem InvB_iff (t : Timer) : InvB t = true ↔
    (t.inner_wraps < U32 ∧ t.outer_wraps < U32 ∧
      t.current_systick ≤ t.reload_value ∧ t.reload_value < U32 ∧
      (t.pendst_is_pending = true → t.wrapsOf + 1 < U64)) := by
  unfold InvB
  rcases hp : t.pendst_is_pending <;>
    simp [hp, Bool.and_eq_true, decide_eq_true_eq, and_assoc]

theorem okStepB_hw_iff (t : Timer) : okStepB Proc.hw t = true ↔
    (t.current_systick = 0 →
      (t.pendst_is_pending = false ∧ t.wrapsOf + 1 < U64)) := by
  rcases hp : t.pendst_is_pending <;>
    by_cases hz : t.current_systick = 0 <;>
    simp [okStepB, hp, hz, Bool.and_eq_true, decide_eq_true_eq]

/-- The scheduled steps never change the scaling configuration. -/
theorem stepP_config (p : Proc) (t : Timer) :
    (stepP p t).reload_value = t.reload_value ∧
    (stepP p t).multiplier = t.multiplier ∧
    (stepP p t).shift = t.shift := by
  rcases p with _ | _ | _
  · show (hwStep t).reload_value = t.reload_value ∧
      (hwStep t).multiplier = t.multiplier ∧ (hwStep t).shift = t.shift
    unfold hwStep
    by_cases hz : t.current_systick = 0
    · rw [if_pos hz]
      exact ⟨rfl, rfl, rfl⟩
    · rw [if_neg hz]
      exact ⟨rfl, rfl, rfl⟩
  · show (isrStep t).reload_value = t.reload_value ∧
      (isrStep t).multiplier = t.multiplier ∧ (isrStep t).shift = t.shift
    unfold isrStep
    by_cases hpp : t.pendst_is_pending = true
    · rw [if_pos hpp]
      obtain ⟨-, -, h3, h4, h5, -⟩ :=
        systick_handler_fields { t with pendst_is_pending := false }
      exact ⟨h3, h4, h5⟩
    · rw [if_neg (by simpa using hpp)]
      exact ⟨rfl, rfl, rfl⟩
  · exact ⟨rfl, rfl, rfl⟩

/-- Field characterization of the hardware-driver step. -/
theorem hwStep_fields (t : Timer) :
    (hwStep t).inner_wraps = t.inner_wraps ∧
    (hwStep t).outer_wraps = t.outer_wraps ∧
    (hwStep t).reload_value = t.reload_value ∧
    (hwStep t).multiplier = t.multiplier ∧
    (hwStep t).shift = t.shift ∧
    (hwStep t).wrapsOf = t.wrapsOf ∧
    (t.current_systick = 0 → (hwStep t).current_systick = t.reload_value ∧
      (hwStep t).pendst_is_pending = true) ∧
    (t.current_systick ≠ 0 → (hwStep t).current_systick = t.current_systick - 1 ∧
      (hwStep t).pendst_is_pending = t.pendst_is_pending) := by
  unfold hwStep
  by_cases hz : t.current_systick = 0
  · rw [if_pos hz]
    exact ⟨rfl, rfl, rfl, rfl, rfl, rfl, fun _ => ⟨rfl, rfl⟩,
      fun hnz => absurd hz hnz⟩
  · rw [if_neg hz]
    exact ⟨rfl, rfl, rfl, rfl, rfl, rfl, fun hzz => absurd hzz hz,
      fun _ => ⟨rfl, rfl⟩⟩

/-- The state with the `PENDST` bit cleared, as hardware does on interrupt
entry. -/
def clearPend (t : Timer) : Timer := { t with pendst_is_pending := false }

theorem isrStep_pos (t : Timer) (hpp : t.pendst_is_pending = true) :
    isrStep t = Timer.systick_handler (clearPend t) := by
  unfold isrStep clearPend
  rw [if_pos hpp]

theorem isrStep_neg (t : Timer) (hpp : t.pendst_is_pending = false) :
    isrStep t = t := by
  unfold isrStep
  rw [if_neg (by simp [hpp])]

/-- One guarded step preserves the invariant and never decreases the ghost
cycle count. -/
theorem step_mono (p : Proc) (t : Timer) (hInv : InvB t = true)
    (hok : okStepB p t = true) :
    InvB (stepP p t) = true ∧ cyc t ≤ cyc (stepP p t) := by
  obtain ⟨hi, ho, hv, hR, hp⟩ := (InvB_iff t).mp hInv
  rcases p with _ | _ | _
  · -- hardware driver step
    have hwok := (okStepB_hw_iff t).mp hok
    show InvB (hwStep t) = true ∧ cyc t ≤ cyc (hwStep t)
    obtain ⟨g1, g2, g3, g4, g5, g6, gz, gnz⟩ := hwStep_fields t
    by_cases hz : t.current_systick = 0
    · obtain ⟨hpf, hwlt⟩ := hwok hz
      obtain ⟨gv, gp⟩ := gz hz
      constructor
      · rw [InvB_iff]
        refine ⟨?_, ?_, ?_, ?_, ?_⟩
        · rw [g1]
          exact hi
        · rw [g2]
          exact ho
        · rw [gv, g3]
        · rw [g3]
          exact hR
        · intro _
          rw [g6]
          exact hwlt
      · unfold cyc
        rw [g3, g6, gv]
        simp only [gp, hpf, hz]
        simp
        have hexp : (t.wrapsOf + 1) * (t.reload_value + 1)
            = t.wrapsOf * (t.reload_value + 1) + (t.reload_value + 1) := by ring
        omega
    · obtain ⟨gv, gp⟩ := gnz hz
      constructor
      · rw [InvB_iff]
        refine ⟨?_, ?_, ?_, ?_, ?_⟩
        · rw [g1]
          exact hi
        · rw [g2]
          exact ho
        · rw [gv, g3]
          omega
        · rw [g3]
          exact hR
        · rw [gp, g6]
          exact hp
      · unfold cyc
        rw [g3, g6, gv]
        simp only [gp]
        omega
  · -- ISR driver step
    show InvB (isrStep t) = true ∧ cyc t ≤ cyc (isrStep t)
    by_cases hpp : t.pendst_is_pending = true
    · rw [isrStep_pos t hpp]
      have hi0 : (clearPend t).inner_wraps < U32 := hi
      have ho0 : (clearPend t).outer_wraps < U32 := ho
      obtain ⟨hw1, hw2, hw3⟩ := systick_handler_wrapsOf (clearPend t) hi0 ho0
      obtain ⟨-, -, hf3, -, -, hf6, -, hf8⟩ := systick_handler_fields (clearPend t)
      have hw0 : (clearPend t).wrapsOf = t.wrapsOf := rfl
      have hclr : (clearPend t).pendst_is_pending = false := rfl
      have hcur : (clearPend t).current_systick = t.current_systick := rfl
      have hrel0 : (clearPend t).reload_value = t.reload_value := rfl
      have hwlt := hp hpp
      constructor
      · rw [InvB_iff]
        refine ⟨hw2, hw3, ?_, ?_, ?_⟩
        · rw [hf6, hcur, hf3, hrel0]
          exact hv
        · rw [hf3, hrel0]
          exact hR
        · rw [hf8, hclr]
          intro hx
          cases hx
      · unfold cyc
        rw [hw1, hw0, Nat.mod_eq_of_lt hwlt, hf3, hrel0, hf6, hcur]
        simp only [hf8, hclr, hpp]
        simp
    · rw [isrStep_neg t (by simpa using hpp)]
      exact ⟨hInv, le_rfl⟩
  · exact ⟨hInv, le_rfl⟩

/-- Along any guarded schedule, every recorded observation is bounded
below by the scaling of any cycle count at most the current one. -/
theorem chain_outputs : ∀ (procs : List Proc) (t : Timer) (c : Nat),
    InvB t = true → okRunB procs t = true → c ≤ min (cyc t) (U64 - 1) →
    List.Chain (· ≤ ·) (t.scaleCycles c) (outputs procs t) := by
  intro procs
  induction procs with
  | nil =>
    intro t c _ _ _
    exact List.Chain.nil
  | cons p rest ih =>
    intro t c hInv hok hc
    have hok1 : okStepB p t = true ∧ okRunB rest (stepP p t) = true := by
      simpa [okRunB, Bool.and_eq_true] using hok
    by_cases hobs : p = Proc.obs
    · subst hobs
      rw [outputs, if_pos rfl]
      obtain ⟨h1, h2, h3, h4, h5⟩ := (InvB_iff t).mp hInv
      have hnoweq : t.now = t.scaleCycles (min (cyc t) (U64 - 1)) :=
        now_eq_scale_cyc t h1 h2 h3 h4 h5
      have hfit : (min (cyc t) (U64 - 1) * t.multiplier) >>> t.shift < U64 := by
        have := hok1.1
        simpa [okStepB, decide_eq_true_eq] using this
      refine List.Chain.cons ?_ ?_
      · rw [hnoweq]
        exact scaleCycles_mono t hc hfit
      · rw [hnoweq]
        exact ih t (min (cyc t) (U64 - 1)) hInv hok1.2 le_rfl
    · rw [outputs, if_neg hobs]
      obtain ⟨hInv2, hmono⟩ := step_mono p t hInv hok1.1
      have hc2 : c ≤ min (cyc (stepP p t)) (U64 - 1) :=
        le_min (le_trans hc (le_trans (min_le_left _ _) hmono))
          (le_trans hc (min_le_right _ _))
      have hcfg := stepP_config p t
      have hsc : (stepP p t).scaleCycles c = t.scaleCycles c := by
        unfold Timer.scaleCycles
        rw [hcfg.2.1, hcfg.2.2]
      rw [← hsc]
      exact ih (stepP p t) c hInv2 hok1.2 hc2

/-- C1 (amended): within the design envelope — every hardware wrap fires
with the previous wrap already serviced (the ISR driver is never starved
past one full wrap period), the composite wrap count stays below `2^64`,
each `now()` call runs without preemption, and each observation's scaled
result fits in 64 bits — every pair of consecutive observer results along
every schedule of the three drivers satisfies `t_{i+1} ≥ t_i`. -/
theorem timer_monotonicity_amended (t : Timer) (procs : List Proc)
    (hInv : InvB t = true) (hok : okRunB procs t = true) :
    List.Chain' (· ≤ ·) (outputs procs t) := by
  have h := chain_outputs procs t (min (cyc t) (U64 - 1)) hInv hok le_rfl
  cases houts : outputs procs t with
  | nil => trivial
  | cons x xs =>
    rw [houts] at h
    cases h with
    | cons hx hchain => exact hchain

/-- C1 witness: a serviced wrap followed by an observation on the
reload-100 timer — the guarded-schedule hypotheses hold and the recorded
outputs are monotone. -/
theorem timer_monotonicity_amended_witness :
    InvB t100 = true ∧ okRunB [Proc.hw, Proc.isr, Proc.obs] t100 = true ∧
    List.Chain' (· ≤ ·) (outputs [Proc.hw, Proc.isr, Proc.obs] t100) :=
  ⟨by decide, by decide,
    timer_monotonicity_amended t100 [Proc.hw, Proc.isr, Proc.obs]
      (by decide) (by decide)⟩

end STT
